import Mathlib

/-!
# A shallow embedding of `RouterSimulator.cpp`

The C++ program simulates a single IP router: a routing table of
network/gateway/metric entries, longest-prefix-match lookup, and a
forward/drop decision per simulated packet.  This file translates the
program's functions into Lean definitions, one for one:

* `ipToUint`        — the `ipToUint` utility (a model of `sscanf("%d.%d.%d.%d")`);
* `maskFromPrefix`  — the `maskFromPrefix` utility;
* `IPAddress.parse` — the `IPAddress(const string& cidr)` constructor
  (the field `int prefix` of the class is called `plen` here);
* `IPAddress.matches`, `IPAddress.eqb`, `IPAddress.toString` — the member
  functions `matches`, `operator==` and `toString`;
* `Route`, `Route.matches`, `Route.toString` — the `Route` class;
* `addRoute`, `removeRoute`, `findRoute`, `printLines` — `RoutingTable`'s
  member functions (the table's `vector<Route>` is a `List Route`);
* `Packet`, `Packet.toString` — the `Packet` class;
* `handleAdd`, `handleDelete`, `handleSend` — `RouterCLI`'s handlers over an
  explicit state `CLIState` (routing table plus the append-only log), with
  C++ exceptions modelled by `Except CppErr`.

Machine integers are `Nat` with an explicit `% 2^32` where 32-bit wrap-around
matters; the C++ `int` values (a prefix length, a metric) are `Int`.
`std::sort`, which the C++ standard specifies only up to the order of
equivalent elements, is embedded as its contract `stdSortSpec` (a relation
between the table and the displayed permutation), not as one algorithm.
-/

/-- Exceptions the C++ code throws: `ipToUint`'s `invalid_argument` for a
malformed dotted quad (the spec's `ParseError`), `maskFromPrefix`'s
`invalid_argument` for a prefix outside 0..32 (the spec's
`InvalidPrefixError`), and a failure of `std::stoi` on the text after the
slash (`invalid_argument` or `out_of_range`). -/
inductive CppErr where
  | parseError
  | invalidPrefixError
  | stoiError
deriving DecidableEq

/-- The whitespace characters `isspace` recognises in the "C" locale; both
`sscanf`'s `%d` and `std::stoi` skip them before the number. -/
def isSpaceChar (c : Char) : Bool :=
  c == ' ' || c == '\t' || c == '\n' || c == '\r' || c.toNat == 11 || c.toNat == 12

/-- Consume leading decimal digits, accumulating their value. -/
def scanDigits : List Char → Nat → Nat × List Char
  | c :: rest, acc =>
    if c.isDigit then scanDigits rest (acc * 10 + (c.toNat - 48)) else (acc, c :: rest)
  | [], acc => (acc, [])

/-- One `%d` conversion of `sscanf` (equally the digit scan of `std::stoi`):
skip whitespace, an optional sign, then at least one decimal digit; `none`
when no digit follows. -/
def scanInt (s : List Char) : Option (Int × List Char) :=
  match s.dropWhile isSpaceChar with
  | '-' :: rest =>
    match rest with
    | c :: _ =>
      if c.isDigit then
        match scanDigits rest 0 with
        | (n, r) => some (-(n : Int), r)
      else none
    | [] => none
  | '+' :: rest =>
    match rest with
    | c :: _ =>
      if c.isDigit then
        match scanDigits rest 0 with
        | (n, r) => some ((n : Int), r)
      else none
    | [] => none
  | c :: rest =>
    if c.isDigit then
      match scanDigits (c :: rest) 0 with
      | (n, r) => some ((n : Int), r)
    else none
  | [] => none

/-- The literal `.` of the `sscanf` format: it matches exactly one `.` of the
input, with no whitespace skipping. -/
def expectDot : List Char → Option (List Char)
  | '.' :: rest => some rest
  | _ => none

/-- `sscanf(ip, "%d.%d.%d.%d", ...)`: the four converted integers when all
four directives match (trailing text is ignored), else `none` (fewer than 4
conversions makes `ipToUint` throw). -/
def sscanf4d (s : List Char) : Option (Int × Int × Int × Int) :=
  match scanInt s with
  | none => none
  | some (a, s1) =>
    match expectDot s1 with
    | none => none
    | some s2 =>
      match scanInt s2 with
      | none => none
      | some (b, s3) =>
        match expectDot s3 with
        | none => none
        | some s4 =>
          match scanInt s4 with
          | none => none
          | some (c, s5) =>
            match expectDot s5 with
            | none => none
            | some s6 =>
              match scanInt s6 with
              | none => none
              | some (d, _) => some (a, b, c, d)

/-- A C++ `int` reinterpreted as the 32-bit pattern it contributes to the
unsigned result (two's complement, i.e. reduction mod `2^32`). -/
def toU32 (i : Int) : Nat := (i % (4294967296 : Int)).toNat

/-- `ipToUint`: parse `"a.b.c.d"` with `sscanf` and return
`(a<<24)|(b<<16)|(c<<8)|d` as a `uint32_t`.  Note the octets are *not*
range-checked: any ints accepted by `%d` are shifted and or-ed, the result
reduced mod `2^32` (the conversion to `uint32_t`). -/
def ipToUint (ip : String) : Except CppErr Nat :=
  match sscanf4d ip.data with
  | none => .error .parseError
  | some (a, b, c, d) =>
    .ok (((toU32 a <<< 24) ||| (toU32 b <<< 16) ||| (toU32 c <<< 8) ||| toU32 d) % 2 ^ 32)

/-- `maskFromPrefix`: throws for a prefix outside 0..32, returns `0` for
prefix 0 and `0xFFFFFFFF << (32 - p)` (a `uint32_t`, hence mod `2^32`)
otherwise. -/
def maskFromPrefix (p : Int) : Except CppErr Nat :=
  if p < 0 ∨ 32 < p then .error .invalidPrefixError
  else if p = 0 then .ok 0
  else .ok ((0xFFFFFFFF <<< (32 - p.toNat)) % 2 ^ 32)

/-- The `IPAddress` class: `uint32_t addr` and `int prefix` (called `plen`
here).  Its only constructor is `IPAddress.parse`, so every value reachable
in the program has `0 ≤ plen ≤ 32` and `addr` masked. -/
structure IPAddress where
  addr : Nat
  plen : Int
deriving DecidableEq

/-- The `IPAddress(const string& cidr)` constructor: split at the first `/`
(the whole string is the ip part when there is none), read the prefix with
`std::stoi` (32 when absent), then store `ipToUint(ip) & maskFromPrefix(p)`.
The C++ leaves the evaluation order of the two operands of `&` unspecified;
both throwing paths leave no object behind either way, and this model
evaluates `ipToUint` first. -/
def IPAddress.parse (cidr : String) : Except CppErr IPAddress :=
  let cs := cidr.data
  let slashIdx := List.findIdx? (fun c => c == '/') cs
  let ipStr : String := ⟨match slashIdx with | none => cs | some i => cs.take i⟩
  let pRes : Except CppErr Int :=
    match slashIdx with
    | none => .ok 32
    | some i =>
      match scanInt (cs.drop (i + 1)) with
      | none => .error .stoiError
      | some (n, _) =>
        if n < -(2 ^ 31 : Int) ∨ (2 ^ 31 : Int) - 1 < n then .error .stoiError else .ok n
  match pRes with
  | .error e => .error e
  | .ok p =>
    match ipToUint ipStr with
    | .error e => .error e
    | .ok v =>
      match maskFromPrefix p with
      | .error e => .error e
      | .ok m => .ok { addr := v &&& m, plen := p }

/-- `IPAddress::matches`: mask the *other* address with *this* address's
prefix mask and compare with the stored value.  `maskFromPrefix` can throw,
so the result is `Except` (on every address the program constructs the
prefix is in range and the call returns `.ok`). -/
def IPAddress.matches (self other : IPAddress) : Except CppErr Bool :=
  match maskFromPrefix self.plen with
  | .error e => .error e
  | .ok mask => .ok ((other.addr &&& mask) == self.addr)

/-- `IPAddress::operator==`: structural equality on `(addr, prefix)`. -/
def IPAddress.eqb (a b : IPAddress) : Bool :=
  a.addr == b.addr && a.plen == b.plen

/-- `IPAddress::toString`: dotted quad (octets by shifts of 24/16/8/0 and
mask `0xFF`) followed by `/` and the prefix. -/
def IPAddress.toString (a : IPAddress) : String :=
  Nat.repr ((a.addr >>> 24) &&& 0xFF) ++ "." ++ Nat.repr ((a.addr >>> 16) &&& 0xFF) ++ "."
    ++ Nat.repr ((a.addr >>> 8) &&& 0xFF) ++ "." ++ Nat.repr (a.addr &&& 0xFF)
    ++ "/" ++ Int.repr a.plen

/-- The `Route` class: destination network, next-hop gateway, metric. -/
structure Route where
  network : IPAddress
  gateway : IPAddress
  metric : Int
deriving DecidableEq

/-- `Route::matches`: delegate to the network's `matches`. -/
def Route.matches (r : Route) (a : IPAddress) : Except CppErr Bool :=
  IPAddress.matches r.network a

/-- `Route::toString`. -/
def Route.toString (r : Route) : String :=
  "Sieć: " ++ IPAddress.toString r.network ++ ", Brama: " ++ IPAddress.toString r.gateway
    ++ ", Metryka: " ++ Int.repr r.metric

/-- `RoutingTable::addRoute`: `routes.push_back(r)`. -/
def addRoute (t : List Route) (r : Route) : List Route := t ++ [r]

/-- `RoutingTable::removeRoute`: `remove_if` + `erase` keeps, in order, the
entries whose network is not `==` the argument (`std::remove_if` preserves
the relative order of the kept elements); the `Bool` is whether anything was
erased (the C++ prints "removed" vs "not found" on it). -/
def removeRoute (t : List Route) (network : IPAddress) : List Route × Bool :=
  let kept := t.filter (fun r => !(IPAddress.eqb r.network network))
  (kept, !(kept.length == t.length))

/-- The loop of `RoutingTable::findRoute`: fold over the remaining routes,
replacing the current best only when the entry matches and either there is
no best yet or the entry's prefix is strictly greater. -/
def findRouteGo (a : IPAddress) (best : Option Route) : List Route → Except CppErr (Option Route)
  | [] => .ok best
  | r :: rest =>
    match Route.matches r a with
    | .error e => .error e
    | .ok m =>
      findRouteGo a
        (if m then
          match best with
          | none => some r
          | some b => if r.network.plen > b.network.plen then some r else some b
        else best) rest

/-- `RoutingTable::findRoute`: scan all routes starting from no best. -/
def findRoute (t : List Route) (a : IPAddress) : Except CppErr (Option Route) :=
  findRouteGo a none t

/-- The comparator lambda of `RoutingTable::print`:
`a.getMetric() < b.getMetric()`. -/
def metricLtb (a b : Route) : Bool := a.metric < b.metric

/-- The contract of `std::sort(sorted.begin(), sorted.end(), metricLtb)`:
the output is a permutation of the input that is sorted with respect to the
comparator (for elements in output order, `comp(later, earlier)` is false).
The C++ standard leaves the order of equivalent elements unspecified —
`std::sort` is *not* required to be stable — so the sort is embedded as this
relation rather than as one algorithm. -/
def stdSortSpec (input output : List Route) : Prop :=
  input.Perm output ∧ output.Pairwise (fun a b => metricLtb b a = false)

/-- The lines `RoutingTable::print` writes, given a permutation `sorted`
satisfying `stdSortSpec t sorted`: the "table is empty" message for an empty
table, else a header and one indented line per route of the sorted copy.
`print` is `const` and sorts a copy, so the stored table is untouched. -/
def printLines (t : List Route) (sorted : List Route) : List String :=
  if t.isEmpty then ["Tablica routingu jest pusta."]
  else "Aktualna tablica routingu:" :: sorted.map (fun r => "  " ++ Route.toString r)

/-- The `Packet` class. -/
structure Packet where
  source : IPAddress
  destination : IPAddress
  protocol : String
deriving DecidableEq

/-- `Packet::toString`. -/
def Packet.toString (p : Packet) : String :=
  "Pakiet od " ++ IPAddress.toString p.source ++ " do " ++ IPAddress.toString p.destination
    ++ " [" ++ p.protocol ++ "]"

/-- The state `RouterCLI` threads through its handlers: the routing table and
the append-only `router.log` sink (one string per appended line). -/
structure CLIState where
  table : List Route
  log : List String
deriving DecidableEq

/-- `RouterCLI::handleAdd` after the three tokens are extracted: construct
both addresses (an exception from either constructor propagates before
anything is mutated; the C++ evaluation order of the two constructor
arguments is unspecified and immaterial here), append the route, log the
`ADD` record. -/
def handleAdd (st : CLIState) (net gw : String) (m : Int) : CLIState × Except CppErr Unit :=
  match IPAddress.parse net with
  | .error e => (st, .error e)
  | .ok n =>
    match IPAddress.parse gw with
    | .error e => (st, .error e)
    | .ok g =>
      ({ table := addRoute st.table ⟨n, g, m⟩,
         log := st.log ++ ["ADD " ++ net ++ " przez " ++ gw ++ " metryka " ++ Int.repr m] },
       .ok ())

/-- `RouterCLI::handleDelete` after the token is extracted: construct the
address (an exception propagates with nothing mutated), remove, log `DEL`
(the C++ logs `DEL` whether or not anything was removed). -/
def handleDelete (st : CLIState) (net : String) : CLIState × Except CppErr Unit :=
  match IPAddress.parse net with
  | .error e => (st, .error e)
  | .ok n =>
    ({ table := (removeRoute st.table n).1, log := st.log ++ ["DEL " ++ net] }, .ok ())

/-- `RouterCLI::handleSend` after the three tokens are extracted: construct
the packet (either address failing propagates with nothing mutated), look up
the destination, log `FWD` with the gateway or `DROP`.  The table itself is
never written. -/
def handleSend (st : CLIState) (src dst proto : String) : CLIState × Except CppErr Unit :=
  match IPAddress.parse src with
  | .error e => (st, .error e)
  | .ok s =>
    match IPAddress.parse dst with
    | .error e => (st, .error e)
    | .ok d =>
      let pkt : Packet := ⟨s, d, proto⟩
      match findRoute st.table pkt.destination with
      | .error e => (st, .error e)
      | .ok (some r) =>
        ({ st with
           log := st.log ++
             ["FWD " ++ Packet.toString pkt ++ " przez " ++ IPAddress.toString r.gateway] },
         .ok ())
      | .ok none =>
        ({ st with log := st.log ++ ["DROP " ++ Packet.toString pkt] }, .ok ())

/-! ## Derived definitions used by the proofs

Every `IPAddress` the program ever holds comes out of `IPAddress.parse`,
which throws unless the prefix length is in 0..32; `IPAddress.WF` records
that range.  On well-formed addresses `matches` cannot throw, and
`IPAddress.matchesB`/`findRoutePure` are the resulting pure views of
`matches`/`findRoute`, related to the source translations by
`IPAddress.matches_ok` and `findRouteGo_ok`. -/

/-- The prefix-length range `maskFromPrefix` accepts; `IPAddress.parse`
guarantees it for every address it returns. -/
def IPAddress.WF (a : IPAddress) : Prop := 0 ≤ a.plen ∧ a.plen ≤ 32

instance (a : IPAddress) : Decidable a.WF :=
  inferInstanceAs (Decidable (0 ≤ a.plen ∧ a.plen ≤ 32))

/-- The value `maskFromPrefix` returns on an in-range prefix. -/
def maskVal (p : Int) : Nat :=
  if p = 0 then 0 else (0xFFFFFFFF <<< (32 - p.toNat)) % 2 ^ 32

/-- On an in-range prefix, `maskFromPrefix` returns `maskVal`. -/
theorem maskFromPrefix_ok (p : Int) (h0 : 0 ≤ p) (h32 : p ≤ 32) :
    maskFromPrefix p = .ok (maskVal p) := by
  have hno : ¬(p < 0 ∨ 32 < p) := by omega
  unfold maskFromPrefix maskVal
  rw [if_neg hno]
  by_cases hp : p = 0
  · rw [if_pos hp, if_pos hp]
  · rw [if_neg hp, if_neg hp]

/-- What a successful `maskFromPrefix` tells us: the prefix was in range and
the mask is `maskVal`. -/
theorem maskFromPrefix_ok_inv (p : Int) (m : Nat) (h : maskFromPrefix p = .ok m) :
    0 ≤ p ∧ p ≤ 32 ∧ m = maskVal p := by
  unfold maskFromPrefix at h
  split at h
  · cases h
  case isFalse hcond =>
    push_neg at hcond
    split at h
    case isTrue hp =>
      injection h with h
      exact ⟨by omega, by omega, by rw [maskVal, if_pos hp, ← h]⟩
    case isFalse hp =>
      injection h with h
      exact ⟨by omega, by omega, by rw [maskVal, if_neg hp, ← h]⟩

/-- The Boolean value `matches` computes when it does not throw. -/
def IPAddress.matchesB (self other : IPAddress) : Bool :=
  (other.addr &&& maskVal self.plen) == self.addr

/-- On a well-formed receiver, `matches` returns `.ok` of `matchesB`. -/
theorem IPAddress.matches_ok (self other : IPAddress) (h : self.WF) :
    IPAddress.matches self other = .ok (IPAddress.matchesB self other) := by
  unfold IPAddress.matches IPAddress.matchesB
  rw [maskFromPrefix_ok self.plen h.1 h.2]

/-- `Route::matches` on a well-formed network. -/
theorem Route.matchesOk (r : Route) (a : IPAddress) (h : r.network.WF) :
    Route.matches r a = .ok (IPAddress.matchesB r.network a) := by
  unfold Route.matches
  exact IPAddress.matches_ok _ _ h

/-- One step of `findRoute`'s scan, as a pure function: replace the best
entry only when the route matches and its prefix is strictly greater (or
there is no best yet). -/
def stepRoute (a : IPAddress) (best : Option Route) (r : Route) : Option Route :=
  if IPAddress.matchesB r.network a then
    match best with
    | none => some r
    | some b => if r.network.plen > b.network.plen then some r else some b
  else best

/-- The pure view of `findRouteGo` (total because `matchesB` is). -/
def findRoutePure (a : IPAddress) (best : Option Route) : List Route → Option Route
  | [] => best
  | r :: rest => findRoutePure a (stepRoute a best r) rest

/-- On a table of well-formed networks, `findRouteGo` never throws and agrees
with `findRoutePure`. -/
theorem findRouteGo_ok (a : IPAddress) (l : List Route) (best : Option Route)
    (hwf : ∀ r ∈ l, r.network.WF) :
    findRouteGo a best l = .ok (findRoutePure a best l) := by
  induction l generalizing best with
  | nil => rfl
  | cons r rest ih =>
    have hr : r.network.WF := hwf r (List.mem_cons_self r rest)
    have hrest : ∀ x ∈ rest, x.network.WF := fun x hx => hwf x (List.mem_cons_of_mem r hx)
    simp only [findRouteGo, Route.matchesOk r a hr]
    rw [findRoutePure]
    exact ih _ hrest

/-- A step starting from `some b` keeps `b` or switches to a matching route
of strictly greater prefix length. -/
theorem stepRoute_some_cases (a : IPAddress) (b r : Route) :
    stepRoute a (some b) r = some b ∨
      (stepRoute a (some b) r = some r ∧ IPAddress.matchesB r.network a = true ∧
        b.network.plen < r.network.plen) := by
  unfold stepRoute
  by_cases hm : IPAddress.matchesB r.network a
  · rw [if_pos hm]
    by_cases hgt : r.network.plen > b.network.plen
    · exact Or.inr ⟨by simp [hgt], hm, hgt⟩
    · exact Or.inl (by simp [hgt])
  · exact Or.inl (by rw [if_neg hm])

/-- A step on a matching route yields a best entry of prefix length at least
the route's. -/
theorem stepRoute_cand (a : IPAddress) (best : Option Route) (r : Route)
    (hm : IPAddress.matchesB r.network a = true) :
    ∃ b, stepRoute a best r = some b ∧ r.network.plen ≤ b.network.plen := by
  unfold stepRoute
  rw [if_pos hm]
  cases best with
  | none => exact ⟨r, rfl, le_refl _⟩
  | some b =>
    by_cases hgt : r.network.plen > b.network.plen
    · exact ⟨r, by simp [hgt], le_refl _⟩
    · exact ⟨b, by simp [hgt], by omega⟩

/-- A step returns `none` exactly when there was no best and the route does
not match. -/
theorem stepRoute_eq_none_iff (a : IPAddress) (best : Option Route) (r : Route) :
    stepRoute a best r = none ↔ best = none ∧ IPAddress.matchesB r.network a = false := by
  unfold stepRoute
  by_cases hm : IPAddress.matchesB r.network a
  · rw [if_pos hm]
    cases best with
    | none => simp [hm]
    | some b =>
      by_cases hgt : r.network.plen > b.network.plen <;> simp [hgt, hm]
  · have hm' : IPAddress.matchesB r.network a = false := by simpa using hm
    rw [if_neg hm]
    simp [hm']

/-- The scan yields `none` exactly when it started with no best and no route
of the list matches. -/
theorem findRoutePure_none_iff (a : IPAddress) (l : List Route) (best : Option Route) :
    findRoutePure a best l = none ↔
      best = none ∧ ∀ r ∈ l, IPAddress.matchesB r.network a = false := by
  induction l generalizing best with
  | nil => simp [findRoutePure]
  | cons r rest ih =>
    rw [findRoutePure, ih, stepRoute_eq_none_iff]
    constructor
    · rintro ⟨⟨hb, hm⟩, hrest⟩
      refine ⟨hb, fun x hx => ?_⟩
      rcases List.mem_cons.1 hx with rfl | hx'
      · exact hm
      · exact hrest x hx'
    · rintro ⟨hb, hall⟩
      exact ⟨⟨hb, hall r (List.mem_cons_self r rest)⟩,
        fun x hx => hall x (List.mem_cons_of_mem r hx)⟩

/-- The winner of the scan is the starting best or a matching member of the
list. -/
theorem findRoutePure_mem (a : IPAddress) (l : List Route) (best : Option Route) (e : Route)
    (h : findRoutePure a best l = some e) :
    best = some e ∨ (e ∈ l ∧ IPAddress.matchesB e.network a = true) := by
  induction l generalizing best with
  | nil => exact Or.inl h
  | cons r rest ih =>
    rw [findRoutePure] at h
    rcases ih (stepRoute a best r) h with hstep | ⟨hmem, hm⟩
    · cases hb : best with
      | none =>
        rw [hb] at hstep
        unfold stepRoute at hstep
        by_cases hm : IPAddress.matchesB r.network a
        · rw [if_pos hm] at hstep
          injection hstep with hre
          exact Or.inr ⟨hre ▸ List.mem_cons_self r rest, hre ▸ hm⟩
        · rw [if_neg hm] at hstep
          cases hstep
      | some b =>
        rw [hb] at hstep
        rcases stepRoute_some_cases a b r with hkeep | ⟨hswap, hm, _⟩
        · rw [hkeep] at hstep
          injection hstep with hbe
          exact Or.inl (by rw [hbe])
        · rw [hswap] at hstep
          injection hstep with hre
          exact Or.inr ⟨hre ▸ List.mem_cons_self r rest, hre ▸ hm⟩
    · exact Or.inr ⟨List.mem_cons_of_mem r hmem, hm⟩

/-- Starting the scan from `some b`, the winner's prefix length is at least
`b`'s. -/
theorem findRoutePure_plen_mono (a : IPAddress) (l : List Route) (b e : Route)
    (h : findRoutePure a (some b) l = some e) :
    b.network.plen ≤ e.network.plen := by
  induction l generalizing b with
  | nil =>
    injection h with hbe
    rw [hbe]
  | cons r rest ih =>
    rw [findRoutePure] at h
    rcases stepRoute_some_cases a b r with hkeep | ⟨hswap, _, hlt⟩
    · rw [hkeep] at h
      exact ih b h
    · rw [hswap] at h
      exact le_of_lt (lt_of_lt_of_le hlt (ih r h))

/-- Every matching route of the list has prefix length at most the
winner's. -/
theorem findRoutePure_max (a : IPAddress) (l : List Route) (best : Option Route) (e : Route)
    (h : findRoutePure a best l = some e) :
    ∀ r ∈ l, IPAddress.matchesB r.network a = true → r.network.plen ≤ e.network.plen := by
  induction l generalizing best with
  | nil => intro r hr; cases hr
  | cons r0 rest ih =>
    rw [findRoutePure] at h
    intro r hr hm
    rcases List.mem_cons.1 hr with rfl | hr'
    · obtain ⟨b, hb, hle⟩ := stepRoute_cand a best r hm
      rw [hb] at h
      exact le_trans hle (findRoutePure_plen_mono a rest b e h)
    · exact ih (stepRoute a best r0) h r hr' hm

/-- The winner is the starting best, or the *first* route of the list that
matches with a prefix length strictly above the starting best's and every
earlier matching route's — the tie-break of the strictly-greater
comparison. -/
theorem findRoutePure_first (a : IPAddress) (l : List Route) (best : Option Route) (e : Route)
    (h : findRoutePure a best l = some e) :
    best = some e ∨
      ∃ l1 l2, l = l1 ++ e :: l2 ∧ IPAddress.matchesB e.network a = true ∧
        (∀ b, best = some b → b.network.plen < e.network.plen) ∧
        (∀ r ∈ l1, IPAddress.matchesB r.network a = true →
          r.network.plen < e.network.plen) := by
  induction l generalizing best with
  | nil => exact Or.inl h
  | cons r rest ih =>
    rw [findRoutePure] at h
    rcases ih (stepRoute a best r) h with hstep | ⟨l1, l2, hsplit, hcand, hbest, hl1⟩
    · -- the later scan kept the stepped best: e is r, or e is the original best
      cases hb : best with
      | none =>
        rw [hb] at hstep
        unfold stepRoute at hstep
        by_cases hm : IPAddress.matchesB r.network a
        · rw [if_pos hm] at hstep
          injection hstep with hre
          subst hre
          refine Or.inr ⟨[], rest, rfl, hm, ?_, ?_⟩
          · intro b hb'
            cases hb'
          · intro x hx
            cases hx
        · rw [if_neg hm] at hstep
          cases hstep
      | some b =>
        rw [hb] at hstep
        rcases stepRoute_some_cases a b r with hkeep | ⟨hswap, hm, hlt⟩
        · rw [hkeep] at hstep
          injection hstep with hbe
          exact Or.inl (by rw [hbe])
        · rw [hswap] at hstep
          injection hstep with hre
          subst hre
          refine Or.inr ⟨[], rest, rfl, hm, ?_, ?_⟩
          · intro b' hb'
            injection hb' with hbb
            rw [← hbb]
            exact hlt
          · intro x hx
            cases hx
    · -- the winner lies in `rest`: prepend r to the earlier part
      refine Or.inr ⟨r :: l1, l2, by rw [hsplit, List.cons_append], hcand, ?_, ?_⟩
      · intro b hb
        rcases stepRoute_some_cases a b r with hkeep | ⟨hswap, _, hlt⟩
        · exact hbest b (hb ▸ hkeep)
        · exact lt_trans hlt (hbest r (hb ▸ hswap))
      · intro x hx hxm
        rcases List.mem_cons.1 hx with rfl | hx'
        · obtain ⟨b', hb', hle⟩ := stepRoute_cand a best x hxm
          exact lt_of_le_of_lt hle (hbest b' hb')
        · exact hl1 x hx' hxm

/-- `ipToUint` only returns values already reduced mod `2^32`. -/
theorem ipToUint_lt (s : String) (v : Nat) (h : ipToUint s = .ok v) : v < 2 ^ 32 := by
  unfold ipToUint at h
  split at h
  · cases h
  · injection h with h
    rw [← h]
    exact Nat.mod_lt _ (by norm_num)

/-- Masking twice with the same mask is masking once. -/
theorem land_land_self (v m : Nat) : (v &&& m) &&& m = v &&& m := by
  apply Nat.eq_of_testBit_eq
  intro i
  simp [Nat.testBit_land, Bool.and_assoc]

/-- A value below `2^32` is unchanged by `&&& 0xFFFFFFFF`. -/
theorem land_ffffffff (v : Nat) (h : v < 2 ^ 32) : v &&& 0xFFFFFFFF = v := by
  have : (0xFFFFFFFF : Nat) = 2 ^ 32 - 1 := by norm_num
  rw [this, Nat.and_pow_two_sub_one_eq_mod, Nat.mod_eq_of_lt h]

/-- Everything a successful construction guarantees: the prefix is in 0..32
(so `maskFromPrefix` succeeds on it), the stored value is a fixed point of
the mask (the class invariant: host bits cleared at construction), and the
value fits 32 bits. -/
theorem parse_ok_inv (cidr : String) (a : IPAddress) (h : IPAddress.parse cidr = .ok a) :
    a.WF ∧ maskFromPrefix a.plen = .ok (maskVal a.plen) ∧
      a.addr &&& maskVal a.plen = a.addr ∧ a.addr < 2 ^ 32 := by
  simp only [IPAddress.parse] at h
  split at h
  · cases h
  · split at h
    · cases h
    case h_2 v hv =>
      split at h
      · cases h
      case h_2 m hm =>
        injection h with h
        obtain ⟨hp0, hp32, hmv⟩ := maskFromPrefix_ok_inv _ _ hm
        subst h
        subst hmv
        refine ⟨⟨hp0, hp32⟩, maskFromPrefix_ok _ hp0 hp32, land_land_self _ _, ?_⟩
        exact lt_of_le_of_lt (Nat.and_le_left) (ipToUint_lt _ _ hv)

/-- `operator==` decides structural equality. -/
theorem IPAddress.eqb_iff (a b : IPAddress) : IPAddress.eqb a b = true ↔ a = b := by
  unfold IPAddress.eqb
  cases a
  cases b
  simp [Bool.and_eq_true, IPAddress.mk.injEq]

/-- The kept part of `remove_if` is shorter exactly when some element was
removed. -/
theorem filter_length_ne_iff {α : Type} (p : α → Bool) (l : List α) :
    ¬(l.filter p).length = l.length ↔ ∃ x ∈ l, p x = false := by
  induction l with
  | nil => simp
  | cons x xs ih =>
    by_cases hp : p x
    · simp only [List.filter_cons, hp, if_pos, List.length_cons]
      constructor
      · intro hne
        obtain ⟨y, hy, hpy⟩ := ih.1 (by omega)
        exact ⟨y, List.mem_cons_of_mem x hy, hpy⟩
      · rintro ⟨y, hy, hpy⟩
        rcases List.mem_cons.1 hy with rfl | hy'
        · rw [hp] at hpy
          cases hpy
        · have := ih.2 ⟨y, hy', hpy⟩
          omega
    · have hle := List.length_filter_le p xs
      have hpf : p x = false := by simpa using hp
      simp only [List.filter_cons, hpf, List.length_cons]
      rw [if_neg (by simp)]
      constructor
      · intro _
        exact ⟨x, List.mem_cons_self x xs, hpf⟩
      · intro _
        omega

/-! ## The claims -/

/-- Claim C1: `findRoute` returns an entry whose network matches the
destination and whose prefix length is maximal among all matching entries,
and returns `none` exactly when no entry's network matches.  In particular,
with routes `10.0.0.0/8 → 10.0.0.1` and `10.1.0.0/16 → 10.1.0.1`, a lookup
for `10.1.2.3` selects the `/16` route (gateway G2), a lookup for `10.2.0.0`
selects the `/8` route (gateway G1), and a lookup for `192.0.0.0` yields
`none`. -/
theorem C1_findRoute_lpm :
    (∀ (t : List Route) (dest : IPAddress), (∀ r ∈ t, r.network.WF) →
      ∃ res, findRoute t dest = .ok res ∧
        (∀ e, res = some e → e ∈ t ∧ IPAddress.matches e.network dest = .ok true ∧
          ∀ r ∈ t, IPAddress.matches r.network dest = .ok true →
            r.network.plen ≤ e.network.plen) ∧
        (res = none ↔ ∀ r ∈ t, IPAddress.matches r.network dest = .ok false)) ∧
    IPAddress.parse "10.0.0.0/8" = .ok ⟨167772160, 8⟩ ∧
    IPAddress.parse "10.1.0.0/16" = .ok ⟨167837696, 16⟩ ∧
    IPAddress.parse "10.0.0.1" = .ok ⟨167772161, 32⟩ ∧
    IPAddress.parse "10.1.0.1" = .ok ⟨167837697, 32⟩ ∧
    IPAddress.parse "10.1.2.3" = .ok ⟨167838211, 32⟩ ∧
    IPAddress.parse "10.2.0.0" = .ok ⟨167903232, 32⟩ ∧
    IPAddress.parse "192.0.0.0" = .ok ⟨3221225472, 32⟩ ∧
    findRoute [⟨⟨167772160, 8⟩, ⟨167772161, 32⟩, 1⟩, ⟨⟨167837696, 16⟩, ⟨167837697, 32⟩, 1⟩]
        ⟨167838211, 32⟩ = .ok (some ⟨⟨167837696, 16⟩, ⟨167837697, 32⟩, 1⟩) ∧
    findRoute [⟨⟨167772160, 8⟩, ⟨167772161, 32⟩, 1⟩, ⟨⟨167837696, 16⟩, ⟨167837697, 32⟩, 1⟩]
        ⟨167903232, 32⟩ = .ok (some ⟨⟨167772160, 8⟩, ⟨167772161, 32⟩, 1⟩) ∧
    findRoute [⟨⟨167772160, 8⟩, ⟨167772161, 32⟩, 1⟩, ⟨⟨167837696, 16⟩, ⟨167837697, 32⟩, 1⟩]
        ⟨3221225472, 32⟩ = .ok none := by
  refine ⟨?_, rfl, rfl, rfl, rfl, rfl, rfl, rfl, rfl, rfl, rfl⟩
  intro t dest hwf
  refine ⟨findRoutePure dest none t, findRouteGo_ok dest t none hwf, ?_, ?_⟩
  · intro e he
    rcases findRoutePure_mem dest t none e he with hb | ⟨hmem, hm⟩
    · cases hb
    · refine ⟨hmem, ?_, ?_⟩
      · rw [IPAddress.matches_ok _ _ (hwf e hmem), hm]
      · intro r hr hmr
        rw [IPAddress.matches_ok _ _ (hwf r hr)] at hmr
        injection hmr with hmr
        exact findRoutePure_max dest t none e he r hr hmr
  · rw [findRoutePure_none_iff]
    constructor
    · rintro ⟨-, hall⟩ r hr
      rw [IPAddress.matches_ok _ _ (hwf r hr), hall r hr]
    · intro hall
      refine ⟨rfl, fun r hr => ?_⟩
      have hthis := hall r hr
      rw [IPAddress.matches_ok _ _ (hwf r hr)] at hthis
      injection hthis

/-- Claim C2: among candidates of equal maximal prefix length the first in
insertion order wins — the winner is preceded only by matching entries of
strictly smaller prefix length and followed only by matching entries of at
most its prefix length, and the metric plays no part (the characterization
never mentions it).  In particular, after inserting `10.0.0.0/24 → G1`
(metric 20) and then `10.0.0.0/24 → G2` (metric 10), a lookup for `10.0.0.5`
still selects the first route. -/
theorem C2_findRoute_tiebreak :
    (∀ (t : List Route) (dest : IPAddress) (e : Route), (∀ r ∈ t, r.network.WF) →
      findRoute t dest = .ok (some e) →
      ∃ l1 l2, t = l1 ++ e :: l2 ∧ IPAddress.matches e.network dest = .ok true ∧
        (∀ r ∈ l1, IPAddress.matches r.network dest = .ok true →
          r.network.plen < e.network.plen) ∧
        (∀ r ∈ l2, IPAddress.matches r.network dest = .ok true →
          r.network.plen ≤ e.network.plen)) ∧
    IPAddress.parse "10.0.0.0/24" = .ok ⟨167772160, 24⟩ ∧
    IPAddress.parse "10.0.0.5" = .ok ⟨167772165, 32⟩ ∧
    findRoute [⟨⟨167772160, 24⟩, ⟨167772161, 32⟩, 20⟩, ⟨⟨167772160, 24⟩, ⟨167772162, 32⟩, 10⟩]
        ⟨167772165, 32⟩ = .ok (some ⟨⟨167772160, 24⟩, ⟨167772161, 32⟩, 20⟩) := by
  refine ⟨?_, rfl, rfl, rfl⟩
  intro t dest e hwf hfind
  rw [show findRoute t dest = findRouteGo dest none t from rfl,
    findRouteGo_ok dest t none hwf] at hfind
  injection hfind with hfind
  rcases findRoutePure_first dest t none e hfind with hb | ⟨l1, l2, hsplit, hcand, -, hl1⟩
  · cases hb
  · have hmemE : e ∈ t := by
      rw [hsplit]
      exact List.mem_append_right l1 (List.mem_cons_self e l2)
    refine ⟨l1, l2, hsplit, by rw [IPAddress.matches_ok _ _ (hwf e hmemE), hcand], ?_, ?_⟩
    · intro r hr hmr
      have hrt : r ∈ t := by
        rw [hsplit]
        exact List.mem_append_left _ hr
      rw [IPAddress.matches_ok _ _ (hwf r hrt)] at hmr
      injection hmr with hmr
      exact hl1 r hr hmr
    · intro r hr hmr
      have hrt : r ∈ t := by
        rw [hsplit]
        exact List.mem_append_right l1 (List.mem_cons_of_mem e hr)
      rw [IPAddress.matches_ok _ _ (hwf r hrt)] at hmr
      injection hmr with hmr
      exact findRoutePure_max dest t none e hfind r hrt hmr

/-- Claim C3: on any address whose prefix mask is defined, `matches` returns
true exactly when the other address's value masked by the receiver's prefix
mask equals the receiver's stored value; every constructed address matches
itself (its value is already masked), e.g. `10.0.0.0/8`. -/
theorem C3_matches_iff :
    (∀ (self other : IPAddress) (m : Nat), maskFromPrefix self.plen = .ok m →
      (IPAddress.matches self other = .ok true ↔ other.addr &&& m = self.addr)) ∧
    (∀ (cidr : String) (a : IPAddress), IPAddress.parse cidr = .ok a →
      IPAddress.matches a a = .ok true) ∧
    IPAddress.parse "10.0.0.0/8" = .ok ⟨167772160, 8⟩ ∧
    IPAddress.matches ⟨167772160, 8⟩ ⟨167772160, 8⟩ = .ok true := by
  refine ⟨?_, ?_, rfl, rfl⟩
  · intro self other m hm
    unfold IPAddress.matches
    rw [hm]
    simp
  · intro cidr a ha
    obtain ⟨-, hmask, hfix, -⟩ := parse_ok_inv cidr a ha
    unfold IPAddress.matches
    rw [hmask]
    simp [hfix]

/-- Claim C4: every successfully parsed address satisfies the invariant
`value &&& mask = value` (host bits cleared at construction; the embedding
is functional, so no later operation can break it), the mask of prefix 0 is
`0` and of prefix 32 is `0xFFFFFFFF`, and rendering a parsed address shows
the masked network: `Parse("192.168.1.5/24")` renders as
`"192.168.1.0/24"`. -/
theorem C4_parse_invariant :
    (∀ (cidr : String) (a : IPAddress), IPAddress.parse cidr = .ok a →
      ∃ m, maskFromPrefix a.plen = .ok m ∧ a.addr &&& m = a.addr) ∧
    maskFromPrefix 0 = .ok 0 ∧
    maskFromPrefix 32 = .ok 0xFFFFFFFF ∧
    IPAddress.parse "192.168.1.5/24" = .ok ⟨3232235776, 24⟩ ∧
    IPAddress.toString ⟨3232235776, 24⟩ = "192.168.1.0/24" := by
  refine ⟨?_, rfl, rfl, rfl, rfl⟩
  intro cidr a ha
  obtain ⟨-, hmask, hfix, -⟩ := parse_ok_inv cidr a ha
  exact ⟨maskVal a.plen, hmask, hfix⟩

/-- Claim C5: `removeRoute` keeps, in their original relative order, exactly
the entries whose network differs structurally from the argument, and its
flag says whether anything was removed; with no exact match the table is
returned unchanged.  In particular, deleting `192.168.1.0/24` does not touch
a `192.168.1.0/25` entry. -/
theorem C5_removeRoute :
    (∀ (t : List Route) (n : IPAddress),
      ((removeRoute t n).1.Sublist t) ∧
      (∀ r, r ∈ (removeRoute t n).1 ↔ r ∈ t ∧ ¬r.network = n) ∧
      ((removeRoute t n).2 = true ↔ ∃ r ∈ t, r.network = n) ∧
      ((∀ r ∈ t, ¬r.network = n) → removeRoute t n = (t, false))) ∧
    removeRoute [⟨⟨3232235776, 25⟩, ⟨167772161, 32⟩, 1⟩] ⟨3232235776, 24⟩ =
      ([⟨⟨3232235776, 25⟩, ⟨167772161, 32⟩, 1⟩], false) := by
  refine ⟨?_, rfl⟩
  intro t n
  refine ⟨List.filter_sublist t, ?_, ?_, ?_⟩
  · intro r
    rw [show (removeRoute t n).1 = t.filter (fun r => !(IPAddress.eqb r.network n)) from rfl,
      List.mem_filter]
    constructor
    · rintro ⟨hr, hb⟩
      refine ⟨hr, fun he => ?_⟩
      rw [← IPAddress.eqb_iff r.network n] at he
      rw [he] at hb
      cases hb
    · rintro ⟨hr, hne⟩
      refine ⟨hr, ?_⟩
      have : ¬IPAddress.eqb r.network n = true := fun hb =>
        hne ((IPAddress.eqb_iff r.network n).1 hb)
      simp [this]
  · rw [show (removeRoute t n).2 =
      !((t.filter (fun r => !(IPAddress.eqb r.network n))).length == t.length) from rfl]
    rw [Bool.not_eq_eq_eq_not]
    simp only [Bool.not_true, beq_eq_false_iff_ne, ne_eq]
    rw [filter_length_ne_iff]
    constructor
    · rintro ⟨r, hr, hb⟩
      refine ⟨r, hr, ?_⟩
      rw [← IPAddress.eqb_iff r.network n]
      revert hb
      cases IPAddress.eqb r.network n <;> simp
    · rintro ⟨r, hr, he⟩
      refine ⟨r, hr, ?_⟩
      rw [← IPAddress.eqb_iff r.network n] at he
      rw [he]
      rfl
  · intro hno
    have hall : ∀ r ∈ t, (fun r => !(IPAddress.eqb r.network n)) r = true := by
      intro r hr
      have : ¬IPAddress.eqb r.network n = true := fun hb =>
        hno r hr ((IPAddress.eqb_iff r.network n).1 hb)
      simp [this]
    have hkeep : t.filter (fun r => !(IPAddress.eqb r.network n)) = t :=
      List.filter_eq_self.2 hall
    rw [show removeRoute t n =
      (t.filter (fun r => !(IPAddress.eqb r.network n)),
        !((t.filter (fun r => !(IPAddress.eqb r.network n))).length == t.length)) from rfl,
      hkeep]
    simp

/-- Claim C6's counterexample: with two distinct routes of equal metric, the
reversed order also satisfies `std::sort`'s contract, so the rendering is
not forced to keep the insertion order of equal-metric entries — the
claimed stability is not guaranteed by the code's `std::sort`. -/
theorem C6_cex_sort_not_stable :
    stdSortSpec
        [⟨⟨167772160, 24⟩, ⟨167772161, 32⟩, 10⟩, ⟨⟨167772160, 24⟩, ⟨167772162, 32⟩, 10⟩]
        [⟨⟨167772160, 24⟩, ⟨167772162, 32⟩, 10⟩, ⟨⟨167772160, 24⟩, ⟨167772161, 32⟩, 10⟩] ∧
    printLines
        [⟨⟨167772160, 24⟩, ⟨167772161, 32⟩, 10⟩, ⟨⟨167772160, 24⟩, ⟨167772162, 32⟩, 10⟩]
        [⟨⟨167772160, 24⟩, ⟨167772162, 32⟩, 10⟩, ⟨⟨167772160, 24⟩, ⟨167772161, 32⟩, 10⟩] ≠
      printLines
        [⟨⟨167772160, 24⟩, ⟨167772161, 32⟩, 10⟩, ⟨⟨167772160, 24⟩, ⟨167772162, 32⟩, 10⟩]
        [⟨⟨167772160, 24⟩, ⟨167772161, 32⟩, 10⟩, ⟨⟨167772160, 24⟩, ⟨167772162, 32⟩, 10⟩] := by
  refine ⟨⟨?_, ?_⟩, ?_⟩
  · decide
  · decide
  · decide

/-- Claim C6 as amended: any output permitted by `std::sort`'s contract is a
permutation of the table sorted by ascending metric (the order of
equal-metric entries is *unspecified*, `std::sort` being unstable); the
empty table yields the "empty" message; a nonempty table renders a header
plus one line per route of the sorted copy, the stored table untouched (the
embedding sorts a copy, `print` is `const`); and for the example with
metrics `[30, 10, 20]` every permitted output renders the metrics as
`[10, 20, 30]`. -/
theorem C6_print_sorted :
    (∀ (t sorted : List Route), stdSortSpec t sorted →
      sorted.Pairwise (fun x y => x.metric ≤ y.metric) ∧
      t.Perm sorted ∧
      (t = [] → printLines t sorted = ["Tablica routingu jest pusta."]) ∧
      (t ≠ [] → printLines t sorted =
        "Aktualna tablica routingu:" :: sorted.map (fun r => "  " ++ Route.toString r))) ∧
    (∀ sorted : List Route,
      stdSortSpec
          [⟨⟨167772160, 8⟩, ⟨167772161, 32⟩, 30⟩,
           ⟨⟨167837696, 16⟩, ⟨167772162, 32⟩, 10⟩,
           ⟨⟨3232235776, 24⟩, ⟨167772163, 32⟩, 20⟩] sorted →
      sorted.map Route.metric = [10, 20, 30]) := by
  constructor
  · rintro t sorted ⟨hperm, hpair⟩
    refine ⟨?_, hperm, ?_, ?_⟩
    · refine hpair.imp ?_
      intro x y h
      have : ¬(y.metric < x.metric) := by simpa [metricLtb] using h
      omega
    · intro ht
      subst ht
      rfl
    · intro ht
      cases t with
      | nil => exact absurd rfl ht
      | cons x xs => rfl
  · rintro sorted ⟨hperm, hpair⟩
    have hmp : (sorted.map Route.metric).Perm [10, 20, 30] := by
      refine ((hperm.map Route.metric).symm).trans ?_
      decide
    have hms : (sorted.map Route.metric).Pairwise (fun a b => a ≤ b) := by
      rw [List.pairwise_map]
      refine hpair.imp ?_
      intro x y h
      have : ¬(y.metric < x.metric) := by simpa [metricLtb] using h
      omega
    exact List.eq_of_perm_of_sorted hmp hms (by decide)

/-- Claim C7's counterexample: the octet text `"999.1.1.1"` does *not* fail
with a parse error — `sscanf`'s `%d` accepts `999`, the shifts wrap mod
`2^32`, and parsing succeeds with value `0xE7010101` and default prefix
32. -/
theorem C7_cex_octets_unchecked :
    IPAddress.parse "999.1.1.1" = .ok ⟨3875602689, 32⟩ := rfl

/-- Claim C7 as amended: an explicit prefix outside 0..32 that fits in an
`int` fails with the invalid-prefix error (e.g. 33 or -1 after the slash,
and generally whenever `stoi` reads such a value); text with fewer than four
fields fails with the parse error (`"1.2.3"`, `"abc"`); but octet values are
*not* range-checked, so `"999.1.1.1"` succeeds (wrapping mod `2^32`) instead
of failing; and every input whose dotted-quad part `sscanf` accepts and that
has no slash succeeds with the prefix defaulting to 32. -/
theorem C7_parse_errors :
    IPAddress.parse "10.0.0.0/33" = .error .invalidPrefixError ∧
    IPAddress.parse "10.0.0.0/-1" = .error .invalidPrefixError ∧
    IPAddress.parse "1.2.3" = .error .parseError ∧
    IPAddress.parse "abc" = .error .parseError ∧
    IPAddress.parse "999.1.1.1" = .ok ⟨3875602689, 32⟩ ∧
    IPAddress.parse "192.168.0.1" = .ok ⟨3232235521, 32⟩ ∧
    (∀ (s : String) (i : Nat) (n : Int) (cs : List Char) (v : Nat),
      List.findIdx? (fun c => c == '/') s.data = some i →
      scanInt (s.data.drop (i + 1)) = some (n, cs) →
      -(2 ^ 31 : Int) ≤ n → n ≤ (2 ^ 31 : Int) - 1 →
      (n < 0 ∨ 32 < n) →
      ipToUint ⟨s.data.take i⟩ = .ok v →
      IPAddress.parse s = .error .invalidPrefixError) ∧
    (∀ (s : String) (v : Nat),
      List.findIdx? (fun c => c == '/') s.data = none →
      ipToUint s = .ok v →
      IPAddress.parse s = .ok ⟨v, 32⟩) := by
  refine ⟨rfl, rfl, rfl, rfl, rfl, rfl, ?_, ?_⟩
  · intro s i n cs v hidx hscan hlo hhi hout hv
    simp only [IPAddress.parse, hidx, hscan]
    rw [if_neg (by omega), hv]
    simp [hout]
    rw [show maskFromPrefix n = .error .invalidPrefixError from by
      unfold maskFromPrefix
      rw [if_pos hout]]
  · intro s v hidx hv
    have hlt := ipToUint_lt s v hv
    simp only [IPAddress.parse, hidx]
    rw [show (⟨s.data⟩ : String) = s from rfl, hv]
    simp [land_ffffffff v hlt]
    rw [show maskFromPrefix 32 = Except.ok 4294967295 from rfl]
    simp [land_ffffffff v hlt]

/-- Claim C8: when `add`, `del` or `send` fails with a constructor exception
(parse, invalid prefix, or the stoi failure), the state after the call — the
routing table *and* the log, i.e. no log record was emitted — equals the
state before it. -/
theorem C8_error_no_mutation :
    (∀ (st : CLIState) (net gw : String) (m : Int) (st2 : CLIState) (e : CppErr),
      handleAdd st net gw m = (st2, .error e) → st2 = st) ∧
    (∀ (st : CLIState) (net : String) (st2 : CLIState) (e : CppErr),
      handleDelete st net = (st2, .error e) → st2 = st) ∧
    (∀ (st : CLIState) (src dst proto : String) (st2 : CLIState) (e : CppErr),
      handleSend st src dst proto = (st2, .error e) → st2 = st) := by
  refine ⟨?_, ?_, ?_⟩
  · intro st net gw m st2 e h
    unfold handleAdd at h
    split at h
    · injection h with h1 h2
      exact h1.symm
    · split at h
      · injection h with h1 h2
        exact h1.symm
      · injection h with h1 h2
        cases h2
  · intro st net st2 e h
    unfold handleDelete at h
    split at h
    · injection h with h1 h2
      exact h1.symm
    · injection h with h1 h2
      cases h2
  · intro st src dst proto st2 e h
    simp only [handleSend] at h
    split at h
    · injection h with h1 h2
      exact h1.symm
    · split at h
      · injection h with h1 h2
        exact h1.symm
      · split at h
        · injection h with h1 h2
          exact h1.symm
        · injection h with h1 h2
          cases h2
        · injection h with h1 h2
          cases h2

/-- Claim C9: when both addresses of a `send` parse and the table is
reachable (all its networks well-formed), the lookup cannot throw, the table
is left exactly as it was, and the outcome is `FWD` through the winning
entry's gateway when `findRoute` finds one and `DROP` when it does not —
`none` is the ordinary drop outcome, not an error. -/
theorem C9_send_decision (st : CLIState) (src dst proto : String) (s d : IPAddress)
    (hs : IPAddress.parse src = .ok s) (hd : IPAddress.parse dst = .ok d)
    (hwf : ∀ r ∈ st.table, r.network.WF) :
    ∃ res, findRoute st.table d = .ok res ∧
      ((∃ r, res = some r ∧
          handleSend st src dst proto =
            ({ table := st.table,
               log := st.log ++
                 ["FWD " ++ Packet.toString ⟨s, d, proto⟩ ++ " przez " ++
                   IPAddress.toString r.gateway] }, .ok ())) ∨
        (res = none ∧
          handleSend st src dst proto =
            ({ table := st.table,
               log := st.log ++ ["DROP " ++ Packet.toString ⟨s, d, proto⟩] }, .ok ()))) := by
  have hfind : findRoute st.table d = .ok (findRoutePure d none st.table) :=
    findRouteGo_ok d st.table none hwf
  cases hres : findRoutePure d none st.table with
  | none =>
    rw [hres] at hfind
    refine ⟨none, hfind, Or.inr ⟨rfl, ?_⟩⟩
    simp only [handleSend, hs, hd]
    rw [hfind]
  | some r =>
    rw [hres] at hfind
    refine ⟨some r, hfind, Or.inl ⟨r, rfl, ?_⟩⟩
    simp only [handleSend, hs, hd]
    rw [hfind]

/-- Claim C9's witness: a concrete `send` over a one-route table, forwarded
through the `/8` route's gateway. -/
theorem C9_send_decision_witness :
    IPAddress.parse "10.0.0.1" = .ok ⟨167772161, 32⟩ ∧
    IPAddress.parse "10.1.2.3" = .ok ⟨167838211, 32⟩ ∧
    (∀ r ∈ [(⟨⟨167772160, 8⟩, ⟨167772161, 32⟩, 1⟩ : Route)], r.network.WF) ∧
    (∃ res,
      findRoute [⟨⟨167772160, 8⟩, ⟨167772161, 32⟩, 1⟩] ⟨167838211, 32⟩ = .ok res ∧
      ((∃ r, res = some r ∧
          handleSend (CLIState.mk [⟨⟨167772160, 8⟩, ⟨167772161, 32⟩, 1⟩] [])
              "10.0.0.1" "10.1.2.3" "ICMP" =
            (CLIState.mk [⟨⟨167772160, 8⟩, ⟨167772161, 32⟩, 1⟩]
              ["FWD " ++ Packet.toString ⟨⟨167772161, 32⟩, ⟨167838211, 32⟩, "ICMP"⟩ ++
                " przez " ++ IPAddress.toString r.gateway], .ok ())) ∨
        (res = none ∧
          handleSend (CLIState.mk [⟨⟨167772160, 8⟩, ⟨167772161, 32⟩, 1⟩] [])
              "10.0.0.1" "10.1.2.3" "ICMP" =
            (CLIState.mk [⟨⟨167772160, 8⟩, ⟨167772161, 32⟩, 1⟩]
              ["DROP " ++ Packet.toString ⟨⟨167772161, 32⟩, ⟨167838211, 32⟩, "ICMP"⟩],
             .ok ())))) :=
  ⟨rfl, rfl, by decide,
    C9_send_decision (CLIState.mk [⟨⟨167772160, 8⟩, ⟨167772161, 32⟩, 1⟩] [])
      "10.0.0.1" "10.1.2.3" "ICMP" ⟨167772161, 32⟩ ⟨167838211, 32⟩ rfl rfl (by decide)⟩

/-- Claim C10: `handleAdd` never inspects the metric — for every parseable
network and gateway text and *every* integer metric (negative included),
the route is appended carrying that metric unchanged, and the `ADD` record
is logged. -/
theorem C10_add_no_metric_check (st : CLIState) (net gw : String) (m : Int)
    (n g : IPAddress) (hn : IPAddress.parse net = .ok n) (hg : IPAddress.parse gw = .ok g) :
    handleAdd st net gw m =
      ({ table := st.table ++ [⟨n, g, m⟩],
         log := st.log ++ ["ADD " ++ net ++ " przez " ++ gw ++ " metryka " ++ Int.repr m] },
       .ok ()) := by
  simp only [handleAdd, hn, hg, addRoute]

/-- Claim C10's witness: adding a route with the negative metric -7
succeeds and stores -7. -/
theorem C10_add_no_metric_check_witness :
    IPAddress.parse "10.0.0.0/8" = .ok ⟨167772160, 8⟩ ∧
    IPAddress.parse "10.0.0.1" = .ok ⟨167772161, 32⟩ ∧
    handleAdd { table := [], log := [] } "10.0.0.0/8" "10.0.0.1" (-7) =
      ({ table := ([] : List Route) ++ [⟨⟨167772160, 8⟩, ⟨167772161, 32⟩, -7⟩],
         log := ([] : List String) ++
           ["ADD " ++ "10.0.0.0/8" ++ " przez " ++ "10.0.0.1" ++ " metryka " ++ Int.repr (-7)] },
       .ok ()) :=
  ⟨rfl, rfl,
    C10_add_no_metric_check { table := [], log := [] } "10.0.0.0/8" "10.0.0.1" (-7)
      ⟨167772160, 8⟩ ⟨167772161, 32⟩ rfl rfl⟩
